import Mathlib

/-!
Shallow embedding of the cancellable worker-pool job system described by the
repository's specification, together with the concrete initialization
primitives (`ResilientOnce`, `RetryOnce`, `sync.Once`) and worker select loops
found in the Go sources (`contextWithTimeout.go`, `contextWithCancel.go`,
`syncOnce.go`).  Pure control flow is embedded as Lean functions; the
concurrent pool is embedded as an explicit state machine (`Pool`, `poolStep`)
driven by an operation trace.
-/

namespace JobSystem

/-- A task: an opaque unit of work with an identifier and a payload. -/
structure Task where
  id : Nat
  payload : String
deriving DecidableEq, Repr

/-- The two states of the process-wide cancellation signal. -/
inductive SignalState where
  | active
  | cancelled
deriving DecidableEq, Repr

/-- Operations available on the cancellation signal: a caller may trigger it
(`cancel()` in `contextWithCancel.go`) or observe it (`<-ctx.Done()`). -/
inductive SignalOp where
  | trigger
  | observe
deriving DecidableEq, Repr

/-- Triggering the signal moves any state to `cancelled`; observing changes
nothing.  This is the semantics of `context.WithCancel`'s cancel function as
used in `contextWithCancel.go`. -/
def SignalState.applyOp : SignalState → SignalOp → SignalState
  | _, SignalOp.trigger => SignalState.cancelled
  | s, SignalOp.observe => s

/-- Apply a whole sequence of signal operations. -/
def SignalState.applyOps (s : SignalState) (ops : List SignalOp) : SignalState :=
  ops.foldl SignalState.applyOp s

/-- The `sync.Once` state from the simplified pseudo-code in `syncOnce.go`
(lines 35-54): a single `done` flag. -/
structure Once where
  done : Bool
deriving DecidableEq, Repr

/-- `Once.Do` from `syncOnce.go`: runs `f` only when `done` is still unset and
then sets it.  The returned Bool records whether `f` was run by this call. -/
def Once.Do (o : Once) : Once × Bool :=
  if o.done then (o, false) else ({ done := true }, true)

/-- The typed error taxonomy of the pool (spec section 7). -/
inductive PoolError where
  | PoolNotRunning
  | PoolShuttingDown
  | ShutdownTimedOut
  | TaskFailed
  | AlreadyStarted
deriving DecidableEq, Repr

/-- Modelled from the spec: the bounded FIFO task queue (spec section 4.1)
connecting producers to workers.  The repository contains only prose sketches
of this queue, no implementation.  `buffer` holds tasks in order, head first. -/
structure TaskQueue where
  buffer : List Task
  capacity : Nat
  closed : Bool
deriving DecidableEq, Repr

/-- The three possible outcomes of a completed `Dequeue` call. -/
inductive DequeueOutcome where
  | delivered (t : Task)
  | Cancelled
  | Closed
deriving DecidableEq, Repr

/-- Modelled from the spec: `Dequeue()` blocks until a task is available
(returns it, removing it from the head), the cancellation signal fires
(returns `Cancelled`), or the queue is closed with no remaining tasks
(returns `Closed`).  A result of `none` means the call is still blocked. -/
def dequeue (sig : SignalState) (q : TaskQueue) : Option (DequeueOutcome × TaskQueue) :=
  match sig, q.buffer with
  | SignalState.cancelled, _ => some (DequeueOutcome.Cancelled, q)
  | SignalState.active, t :: rest => some (DequeueOutcome.delivered t, { q with buffer := rest })
  | SignalState.active, [] =>
      if q.closed then some (DequeueOutcome.Closed, q) else none

/-- The tasks a completed dequeue call hands to the caller (one on normal
delivery, none otherwise). -/
def extractedTasks : Option (DequeueOutcome × TaskQueue) → List Task
  | some (DequeueOutcome.delivered t, _) => [t]
  | some (DequeueOutcome.Cancelled, _) => []
  | some (DequeueOutcome.Closed, _) => []
  | none => []

/-- The queue buffer after a dequeue call (unchanged while the call blocks). -/
def remainingBuffer (q : TaskQueue) : Option (DequeueOutcome × TaskQueue) → List Task
  | some (_, q2) => q2.buffer
  | none => q.buffer

/-- Modelled from the spec: `Enqueue(task)` blocks while the queue is full
(`none`), fails with `PoolShuttingDown` when the cancellation signal has
fired, and otherwise succeeds by placing the task at the tail. -/
def enqueue (sig : SignalState) (q : TaskQueue) (t : Task) :
    Option (Except PoolError TaskQueue) :=
  match sig with
  | SignalState.cancelled => some (Except.error PoolError.PoolShuttingDown)
  | SignalState.active =>
      if q.buffer.length < q.capacity then
        some (Except.ok { q with buffer := q.buffer ++ [t] })
      else none

/-- A single producer enqueueing a sequence of tasks in order; `none` when any
enqueue fails or blocks. -/
def enqueueAll (q : TaskQueue) : List Task → Option TaskQueue
  | [] => some q
  | t :: ts =>
      match enqueue SignalState.active q t with
      | some (Except.ok q2) => enqueueAll q2 ts
      | _ => none

/-- Repeatedly dequeue while tasks are delivered, collecting the delivery
order (`fuel` bounds the number of calls). -/
def drain (fuel : Nat) (sig : SignalState) (q : TaskQueue) : List Task :=
  match fuel with
  | 0 => []
  | Nat.succ f =>
      match dequeue sig q with
      | some (DequeueOutcome.delivered t, q2) => t :: drain f sig q2
      | _ => []

/-- An event a worker's select loop can observe: a task became available, or
the cancellation signal fired (`contextWithCancel.go`, worker: `select` on
`ctx.Done()` versus work arriving). -/
inductive WorkerEvent where
  | taskAvailable (t : Task)
  | cancelFired
deriving DecidableEq, Repr

/-- Outcome of running a worker loop over a finite event trace. -/
structure WorkerRun where
  processed : List Task
  exited : Bool
  barrierReports : Nat
deriving DecidableEq, Repr

/-- The worker run loop from `contextWithCancel.go` (`worker`, lines 331-355):
each iteration selects on the first available event; a task is processed and
the loop continues; on observing cancellation the worker exits and — modelled
from the spec — reports completion to the controller's completion barrier
exactly once.  An exhausted trace leaves the worker still blocked in its
loop. -/
def workerRun : List WorkerEvent → WorkerRun
  | [] => { processed := [], exited := false, barrierReports := 0 }
  | WorkerEvent.cancelFired :: _ =>
      { processed := [], exited := true, barrierReports := 1 }
  | WorkerEvent.taskAvailable t :: evs =>
      let r := workerRun evs
      { processed := t :: r.processed, exited := r.exited, barrierReports := r.barrierReports }

/-- The tasks delivered strictly before the first cancellation event. -/
def tasksBeforeCancel : List WorkerEvent → List Task
  | [] => []
  | WorkerEvent.cancelFired :: _ => []
  | WorkerEvent.taskAvailable t :: evs => t :: tasksBeforeCancel evs

/-- What a task handler does when invoked: return nil, return an error, or
raise a fault (panic). -/
inductive HandlerOutcome where
  | ok
  | errored (msg : String)
  | panicked (msg : String)
deriving DecidableEq, Repr

/-- The per-task result the worker records. -/
inductive TaskResult where
  | completed
  | taskFailed (msg : String)
deriving DecidableEq, Repr

/-- Modelled from the spec: execution of one task at the worker boundary.  A
fault raised by the handler is recovered — the `recover()` barrier of
`ResilientOnce.Do` / `RetryOnce.Do` in `contextWithTimeout.go` — and converted
to a `TaskFailed` result instead of crashing the worker. -/
def execTask : HandlerOutcome → TaskResult
  | HandlerOutcome.ok => TaskResult.completed
  | HandlerOutcome.errored m => TaskResult.taskFailed m
  | HandlerOutcome.panicked m => TaskResult.taskFailed ("panic: " ++ m)

/-- A single worker executing a whole list of task handlers in order: because
every fault is converted at the boundary, the worker records one result per
task and proceeds to the next. -/
def workerExecuteAll (hs : List HandlerOutcome) : List TaskResult :=
  hs.map execTask

/-- The lifecycle phases of the pool controller (spec section 4.3). -/
inductive PoolPhase where
  | created
  | running
  | draining
  | stopped
deriving DecidableEq, Repr

/-- Status of one worker handle: waiting for work, executing a task, or
returned from its run loop. -/
inductive WStatus where
  | idle
  | busy
  | exited
deriving DecidableEq, Repr

/-- Modelled from the spec: the pool controller's state — lifecycle phase,
configured pool size, the worker handles, the completion barrier counter, the
shared cancellation signal, and the pending task queue (spec sections 3 and
4.3). -/
structure Pool where
  phase : PoolPhase
  poolSize : Nat
  workers : List WStatus
  barrier : Nat
  signal : SignalState
  queue : List Task
deriving DecidableEq, Repr

/-- A freshly created pool controller with configured size `k`. -/
def Pool.init (k : Nat) : Pool :=
  { phase := PoolPhase.created, poolSize := k, workers := [], barrier := 0,
    signal := SignalState.active, queue := [] }

/-- The operations that drive the pool state machine: the public lifecycle
calls and the individual workers' internal steps. -/
inductive PoolOp where
  | start
  | submit (t : Task)
  | shutdown
  | workerBegin (i : Nat)
  | workerFinish (i : Nat)
  | workerExit (i : Nat)
deriving DecidableEq, Repr

/-- Modelled from the spec: one transition of the pool controller state
machine (spec section 4.3).  `start` spawns exactly `poolSize` workers and
arms the completion barrier, failing with `AlreadyStarted` when called again;
`submit` fails with `PoolNotRunning` outside the Running phase; `shutdown`
triggers the cancellation signal exactly once (a second call is a no-op);
a worker may begin a pending task while the signal is active, finish its
current task, or — after observing cancellation — exit its run loop,
decrementing the barrier exactly once. -/
def poolStep (p : Pool) : PoolOp → Pool × Option PoolError
  | PoolOp.start =>
      if p.phase = PoolPhase.created then
        ({ p with phase := PoolPhase.running,
                  workers := List.replicate p.poolSize WStatus.idle,
                  barrier := p.poolSize }, none)
      else (p, some PoolError.AlreadyStarted)
  | PoolOp.submit t =>
      if p.phase = PoolPhase.running then
        ({ p with queue := p.queue ++ [t] }, none)
      else (p, some PoolError.PoolNotRunning)
  | PoolOp.shutdown =>
      if p.phase = PoolPhase.running then
        ({ p with phase := PoolPhase.draining, signal := SignalState.cancelled }, none)
      else (p, none)
  | PoolOp.workerBegin i =>
      match p.workers[i]?, p.queue, p.signal with
      | some WStatus.idle, _ :: rest, SignalState.active =>
          ({ p with workers := p.workers.set i WStatus.busy, queue := rest }, none)
      | _, _, _ => (p, none)
  | PoolOp.workerFinish i =>
      match p.workers[i]? with
      | some WStatus.busy => ({ p with workers := p.workers.set i WStatus.idle }, none)
      | _ => (p, none)
  | PoolOp.workerExit i =>
      match p.workers[i]?, p.signal with
      | some WStatus.idle, SignalState.cancelled =>
          ({ p with workers := p.workers.set i WStatus.exited,
                    barrier := p.barrier - 1,
                    phase := if p.barrier - 1 = 0 then PoolPhase.stopped else p.phase }, none)
      | _, _ => (p, none)

/-- Run a trace of pool operations, keeping only the evolving state. -/
def poolRun (p : Pool) (ops : List PoolOp) : Pool :=
  ops.foldl (fun q op => (poolStep q op).1) p

/-- The state reached from a fresh pool of size `k` after a trace. -/
def reachPool (k : Nat) (ops : List PoolOp) : Pool :=
  poolRun (Pool.init k) ops

/-- Whether a worker handle is still live (has not exited its run loop). -/
def liveP (w : WStatus) : Bool :=
  w ≠ WStatus.exited

/-- Number of live (not yet exited) worker handles. -/
def liveCount (p : Pool) : Nat :=
  p.workers.countP liveP

/-- Number of workers currently executing a task. -/
def busyCount (p : Pool) : Nat :=
  p.workers.countP (fun w => w = WStatus.busy)

/-- What a candidate initialization function does on one invocation. -/
inductive FnOutcome where
  | ok
  | err (msg : String)
  | panics (msg : String)
deriving DecidableEq, Repr

/-- `ResilientOnce` from `contextWithTimeout.go` (lines 199-204): a wrapper
around `sync.Once` with panic recovery, recording whether the single
initialization attempt succeeded and its error. -/
structure ResilientOnce where
  onceDone : Bool
  succeeded : Bool
  initErr : Option String
deriving DecidableEq, Repr

/-- The zero value of `ResilientOnce`. -/
def ResilientOnce.zero : ResilientOnce :=
  { onceDone := false, succeeded := false, initErr := none }

/-- `ResilientOnce.Do` from `contextWithTimeout.go` (lines 206-231): the inner
closure runs under `sync.Once` (so `f` executes only when `onceDone` is still
false); a panic is recovered and recorded as a failure; otherwise the error
and success flag of `f` are recorded.  Afterwards the call returns nil exactly
when the recorded attempt succeeded.  The result is (new state, whether the
call returned nil, whether `f` was invoked by this call). -/
def ResilientOnce.Do (r : ResilientOnce) (f : FnOutcome) : ResilientOnce × Bool × Bool :=
  let r2 :=
    if r.onceDone then r
    else
      match f with
      | FnOutcome.ok => { onceDone := true, succeeded := true, initErr := none }
      | FnOutcome.err m => { onceDone := true, succeeded := false, initErr := some m }
      | FnOutcome.panics m =>
          { onceDone := true, succeeded := false,
            initErr := some ("panic during initialization: " ++ m) }
  (r2, r2.succeeded, !r.onceDone)

/-- A sequence of `Do` calls on the same receiver; the n-th element of `fs`
is what `f` would do were it invoked by the n-th call.  Returns the final
state and, per call, (returned nil?, invoked f?). -/
def ResilientOnce.runCalls (r : ResilientOnce) : List FnOutcome → ResilientOnce × List (Bool × Bool)
  | [] => (r, [])
  | f :: fs =>
      let step := r.Do f
      let rest := step.1.runCalls fs
      (rest.1, (step.2.1, step.2.2) :: rest.2)

/-- `RetryOnce` from `contextWithTimeout.go` (lines 234-238): an initialized
flag and a retry budget. -/
structure RetryOnce where
  initialized : Bool
  maxRetries : Nat
deriving DecidableEq, Repr

/-- One attempt of `f` under the `recover()` wrapper inside `RetryOnce.Do`:
a panic is converted to a non-nil error, so the attempt yields nil exactly
when `f` returned nil without panicking. -/
def attemptErr : FnOutcome → Option String
  | FnOutcome.ok => none
  | FnOutcome.err m => some m
  | FnOutcome.panics m => some ("panic: " ++ m)

/-- The retry loop of `RetryOnce.Do` (`for attempt := 0; attempt < maxRetries`):
`f i` is what `f` does on its i-th invocation (0-based); `rem` attempts remain
starting at index `i`.  Returns `some n` with `n` the total number of
invocations on the first nil attempt, `none` when every attempt failed. -/
def retryLoop (f : Nat → FnOutcome) : Nat → Nat → Option Nat
  | _, 0 => none
  | i, Nat.succ rem =>
      match attemptErr (f i) with
      | none => some (i + 1)
      | some _ => retryLoop f (i + 1) rem

/-- `RetryOnce.Do` from `contextWithTimeout.go` (lines 240-270): under the
mutex, return nil immediately when already initialized; otherwise attempt `f`
up to `maxRetries` times, setting `initialized` and returning nil on the first
success, and returning the non-nil "all attempts failed" error otherwise.
The result is (new state, whether the call returned nil, number of times `f`
was invoked). -/
def RetryOnce.Do (r : RetryOnce) (f : Nat → FnOutcome) : RetryOnce × Bool × Nat :=
  if r.initialized then (r, true, 0)
  else
    match retryLoop f 0 r.maxRetries with
    | some n => ({ r with initialized := true }, true, n)
    | none => (r, false, r.maxRetries)

/-- The state invariant of the pool controller: the completion barrier equals
the number of live workers, the worker-handle list never exceeds the
configured pool size, and a worker can only have exited after the
cancellation signal fired. -/
def PoolInv (p : Pool) : Prop :=
  p.barrier = liveCount p ∧
  p.workers.length ≤ p.poolSize ∧
  (∀ w ∈ p.workers, w = WStatus.exited → p.signal = SignalState.cancelled)

/-- Helper: updating one known element of a list shifts `countP` by the
difference of the predicate on the old and new values. -/
theorem countP_set_eq (pr : WStatus → Bool) :
    ∀ (l : List WStatus) (i : Nat) (v w : WStatus), l[i]? = some w →
      (l.set i v).countP pr + (if pr w then 1 else 0) =
        l.countP pr + (if pr v then 1 else 0) := by
  intro l
  induction l with
  | nil => intro i v w h; simp at h
  | cons a l ih =>
      intro i v w h
      cases i with
      | zero =>
          simp only [List.getElem?_cons_zero, Option.some.injEq] at h
          subst h
          simp [List.countP_cons]
          omega
      | succ j =>
          simp only [List.getElem?_cons_succ] at h
          have := ih j v w h
          simp [List.countP_cons, List.set]
          omega

/-- C1: the cancellation signal makes exactly one transition, from active to
cancelled; triggering is idempotent (a second cancel call is a no-op), no
operation ever moves the signal back from cancelled to active, and the
underlying `sync.Once` mechanism never runs its function a second time. -/
theorem c1_cancellation_one_shot :
    SignalState.applyOp SignalState.active SignalOp.trigger = SignalState.cancelled ∧
    (∀ s : SignalState,
        (s.applyOp SignalOp.trigger).applyOp SignalOp.trigger = s.applyOp SignalOp.trigger) ∧
    (∀ ops : List SignalOp,
        SignalState.applyOps SignalState.cancelled ops = SignalState.cancelled) ∧
    (∀ o : Once, (o.Do.1).Do = (o.Do.1, false)) := by
  refine ⟨rfl, fun s => rfl, ?_, ?_⟩
  · intro ops
    induction ops with
    | nil => rfl
    | cons op ops ih =>
        cases op <;> simpa [SignalState.applyOps, SignalState.applyOp] using ih
  · intro o
    cases o with
    | mk d => cases d <;> rfl

/-- C2: the worker run loop waits on task availability and cancellation
simultaneously; it exits exactly when it observes cancellation, reports to the
completion barrier exactly once on its exit path (never otherwise), and
processes exactly the tasks delivered before the first cancellation — it
never continues processing after observing cancellation. -/
theorem c2_worker_select_loop (evs : List WorkerEvent) :
    (workerRun evs).exited = decide (WorkerEvent.cancelFired ∈ evs) ∧
    (workerRun evs).barrierReports = (if WorkerEvent.cancelFired ∈ evs then 1 else 0) ∧
    (workerRun evs).processed = tasksBeforeCancel evs := by
  induction evs with
  | nil => simp [workerRun, tasksBeforeCancel]
  | cons e evs ih =>
      obtain ⟨h1, h2, h3⟩ := ih
      cases e with
      | cancelFired => simp [workerRun, tasksBeforeCancel]
      | taskAvailable t =>
          refine ⟨?_, ?_, ?_⟩ <;> simp [workerRun, tasksBeforeCancel, h1, h2, h3]

/-- C3: a task handler that raises a fault is caught at the worker boundary
and converted to a `TaskFailed` result; the worker does not crash and
proceeds to execute every subsequent task (one recorded result per task). -/
theorem c3_fault_isolation (pre post : List HandlerOutcome) (m : String) :
    workerExecuteAll (pre ++ HandlerOutcome.panicked m :: post) =
      workerExecuteAll pre ++ TaskResult.taskFailed ("panic: " ++ m) :: workerExecuteAll post ∧
    (workerExecuteAll (pre ++ HandlerOutcome.panicked m :: post)).length =
      pre.length + 1 + post.length := by
  constructor
  · simp [workerExecuteAll, execTask]
  · simp [workerExecuteAll]
    omega

/-- C4: every completed `Dequeue` call has exactly one of three outcomes —
normal delivery of the head task, `Cancelled` when the signal has fired, or
`Closed` when the queue is closed and empty; the only remaining case is
blocking, and in every case the delivered tasks plus the remaining buffer are
exactly the original buffer (no task duplicated or silently dropped). -/
theorem c4_dequeue_trichotomy :
    (∀ q : TaskQueue, dequeue SignalState.cancelled q = some (DequeueOutcome.Cancelled, q)) ∧
    (∀ (t : Task) (rest : List Task) (cap : Nat) (cl : Bool),
        dequeue SignalState.active { buffer := t :: rest, capacity := cap, closed := cl } =
          some (DequeueOutcome.delivered t,
                { buffer := rest, capacity := cap, closed := cl })) ∧
    (∀ cap : Nat,
        dequeue SignalState.active { buffer := [], capacity := cap, closed := true } =
          some (DequeueOutcome.Closed, { buffer := [], capacity := cap, closed := true })) ∧
    (∀ cap : Nat,
        dequeue SignalState.active { buffer := [], capacity := cap, closed := false } = none) ∧
    (∀ (sig : SignalState) (q : TaskQueue),
        extractedTasks (dequeue sig q) ++ remainingBuffer q (dequeue sig q) = q.buffer) := by
  refine ⟨fun q => rfl, fun t rest cap cl => rfl, fun cap => ?_, fun cap => ?_, ?_⟩
  · simp [dequeue]
  · simp [dequeue]
  · intro sig q
    obtain ⟨buf, cap, cl⟩ := q
    cases sig with
    | cancelled => rfl
    | active =>
        cases buf with
        | nil =>
            cases cl <;> simp [dequeue, extractedTasks, remainingBuffer]
        | cons t rest => rfl

/-- Helper: a single producer whose tasks all fit in the remaining capacity
enqueues them in order at the tail. -/
theorem enqueueAll_ok (cap : Nat) (cl : Bool) :
    ∀ (ts buf : List Task), buf.length + ts.length ≤ cap →
      enqueueAll { buffer := buf, capacity := cap, closed := cl } ts =
        some { buffer := buf ++ ts, capacity := cap, closed := cl } := by
  intro ts
  induction ts with
  | nil => intro buf h; simp [enqueueAll]
  | cons t ts ih =>
      intro buf h
      have hroom : buf.length < cap := by simp at h; omega
      have hrest : (buf ++ [t]).length + ts.length ≤ cap := by simp; simp at h; omega
      simp only [enqueueAll, enqueue, hroom, if_pos]
      rw [ih (buf ++ [t]) hrest]
      simp

/-- Helper: while the signal is active, draining delivers the whole buffer in
order. -/
theorem drain_active (cap : Nat) (cl : Bool) :
    ∀ buf : List Task,
      drain buf.length SignalState.active { buffer := buf, capacity := cap, closed := cl } = buf := by
  intro buf
  induction buf with
  | nil => rfl
  | cons t rest ih => simp only [List.length_cons, drain, dequeue, ih]

/-- C7: a successful `Enqueue` places the task at the tail; a single
producer's tasks are dequeued in first-enqueued, first-dequeued order; and
for an arbitrary interleaving of several producers, each producer's own
subsequence order is preserved in the delivery order. -/
theorem c7_fifo_single_producer (buf : List Task) (t : Task) (cap cap2 : Nat) (cl : Bool)
    (ts tsA : List Task) (hroom : buf.length < cap) (hcap : ts.length ≤ cap2)
    (hA : tsA.Sublist ts) :
    enqueue SignalState.active { buffer := buf, capacity := cap, closed := cl } t =
      some (Except.ok { buffer := buf ++ [t], capacity := cap, closed := cl }) ∧
    enqueueAll { buffer := [], capacity := cap2, closed := false } ts =
      some { buffer := ts, capacity := cap2, closed := false } ∧
    drain ts.length SignalState.active { buffer := ts, capacity := cap2, closed := false } = ts ∧
    tsA.Sublist
      (drain ts.length SignalState.active { buffer := ts, capacity := cap2, closed := false }) := by
  refine ⟨?_, ?_, ?_, ?_⟩
  · simp [enqueue, hroom]
  · simpa using enqueueAll_ok cap2 false ts [] (by simpa using hcap)
  · exact drain_active cap2 false ts
  · rw [drain_active cap2 false ts]; exact hA

/-- Witness for C7 at a concrete queue: two tasks enqueued by one producer are
delivered in enqueue order, and the second producer's single task keeps its
own order. -/
theorem c7_fifo_single_producer_witness :
    ([] : List Task).length < 1 ∧
    ([Task.mk 1 "a", Task.mk 2 "b"] : List Task).length ≤ 2 ∧
    ([Task.mk 2 "b"] : List Task).Sublist [Task.mk 1 "a", Task.mk 2 "b"] ∧
    (enqueue SignalState.active { buffer := [], capacity := 1, closed := false } (Task.mk 3 "c") =
      some (Except.ok { buffer := [Task.mk 3 "c"], capacity := 1, closed := false }) ∧
    enqueueAll { buffer := [], capacity := 2, closed := false } [Task.mk 1 "a", Task.mk 2 "b"] =
      some { buffer := [Task.mk 1 "a", Task.mk 2 "b"], capacity := 2, closed := false } ∧
    drain ([Task.mk 1 "a", Task.mk 2 "b"] : List Task).length SignalState.active
        { buffer := [Task.mk 1 "a", Task.mk 2 "b"], capacity := 2, closed := false } =
      [Task.mk 1 "a", Task.mk 2 "b"] ∧
    ([Task.mk 2 "b"] : List Task).Sublist
      (drain ([Task.mk 1 "a", Task.mk 2 "b"] : List Task).length SignalState.active
        { buffer := [Task.mk 1 "a", Task.mk 2 "b"], capacity := 2, closed := false })) :=
  ⟨by decide, by decide, by decide,
   c7_fifo_single_producer [] (Task.mk 3 "c") 1 2 false [Task.mk 1 "a", Task.mk 2 "b"]
     [Task.mk 2 "b"] (by decide) (by decide) (by decide)⟩

/-- Helper: all `poolSize` freshly spawned workers are live. -/
theorem countP_replicate_live (k : Nat) :
    (List.replicate k WStatus.idle).countP liveP = k := by
  induction k with
  | zero => rfl
  | succ n ih =>
      rw [List.replicate_succ, List.countP_cons, ih]
      rfl

/-- Helper: a pool step never changes the configured pool size. -/
theorem poolSize_poolStep (p : Pool) (op : PoolOp) : (poolStep p op).1.poolSize = p.poolSize := by
  cases op <;> simp only [poolStep] <;> (repeat' split) <;> rfl

/-- Helper: the pool invariant is preserved by every single step. -/
theorem poolInv_step (p : Pool) (op : PoolOp) (h : PoolInv p) : PoolInv (poolStep p op).1 := by
  obtain ⟨hb, hl, hs⟩ := h
  cases op with
  | start =>
      by_cases hc : p.phase = PoolPhase.created
      · refine ⟨?_, ?_, ?_⟩ <;> simp only [poolStep, hc, if_pos]
        · simpa [liveCount] using (countP_replicate_live p.poolSize).symm
        · simp
        · intro w hw he
          have hidle := List.eq_of_mem_replicate hw
          rw [hidle] at he
          cases he
      · simp only [poolStep, hc, if_neg, not_false_iff]
        exact ⟨hb, hl, hs⟩
  | submit t =>
      by_cases hr : p.phase = PoolPhase.running <;>
        simp only [poolStep, hr, if_pos, if_neg, not_false_iff] <;>
        exact ⟨hb, hl, hs⟩
  | shutdown =>
      by_cases hr : p.phase = PoolPhase.running
      · simp only [poolStep, hr, if_pos]
        exact ⟨hb, hl, fun w hw he => rfl⟩
      · simp only [poolStep, hr, if_neg, not_false_iff]
        exact ⟨hb, hl, hs⟩
  | workerBegin i =>
      simp only [poolStep]
      split
      · next rest heqw heqq heqs =>
          refine ⟨?_, by simpa using hl, ?_⟩
          · have hcount := countP_set_eq liveP p.workers i WStatus.busy WStatus.idle heqw
            rw [show liveP WStatus.idle = true from rfl,
                show liveP WStatus.busy = true from rfl] at hcount
            simp only [if_pos] at hcount
            simp only [liveCount] at hb ⊢
            omega
          · intro w hw he
            rcases List.mem_or_eq_of_mem_set hw with hmem | hv
            · exact hs w hmem he
            · rw [hv] at he; cases he
      · exact ⟨hb, hl, hs⟩
  | workerFinish i =>
      simp only [poolStep]
      split
      · next heqw =>
          refine ⟨?_, by simpa using hl, ?_⟩
          · have hcount := countP_set_eq liveP p.workers i WStatus.idle WStatus.busy heqw
            rw [show liveP WStatus.idle = true from rfl,
                show liveP WStatus.busy = true from rfl] at hcount
            simp only [if_pos] at hcount
            simp only [liveCount] at hb ⊢
            omega
          · intro w hw he
            rcases List.mem_or_eq_of_mem_set hw with hmem | hv
            · exact hs w hmem he
            · rw [hv] at he; cases he
      · exact ⟨hb, hl, hs⟩
  | workerExit i =>
      simp only [poolStep]
      split
      · next heqw heqs =>
          refine ⟨?_, by simpa using hl, ?_⟩
          · have hcount := countP_set_eq liveP p.workers i WStatus.exited WStatus.idle heqw
            rw [show liveP WStatus.idle = true from rfl,
                show liveP WStatus.exited = false from rfl] at hcount
            simp only [if_pos, if_neg, Bool.false_eq_true, not_false_iff] at hcount
            simp only [liveCount] at hb ⊢
            omega
          · intro w hw he
            exact heqs
      · exact ⟨hb, hl, hs⟩

/-- Helper: the pool invariant is preserved by every trace of steps. -/
theorem poolInv_run (ops : List PoolOp) : ∀ p : Pool, PoolInv p → PoolInv (poolRun p ops) := by
  induction ops with
  | nil => intro p h; exact h
  | cons op ops ih => intro p h; exact ih (poolStep p op).1 (poolInv_step p op h)

/-- Helper: a freshly created pool satisfies the invariant. -/
theorem poolInv_init (k : Nat) : PoolInv (Pool.init k) := by
  refine ⟨rfl, by simp [Pool.init], ?_⟩
  intro w hw
  simp [Pool.init] at hw

/-- Helper: every reachable pool state satisfies the invariant. -/
theorem poolInv_reach (k : Nat) (ops : List PoolOp) : PoolInv (reachPool k ops) :=
  poolInv_run ops (Pool.init k) (poolInv_init k)

/-- Helper: the configured pool size is constant along every trace. -/
theorem poolSize_reach (k : Nat) (ops : List PoolOp) : (reachPool k ops).poolSize = k := by
  suffices h : ∀ p : Pool, (poolRun p ops).poolSize = p.poolSize by
    simpa [reachPool, Pool.init] using h (Pool.init k)
  induction ops with
  | nil => intro p; rfl
  | cons op ops ih =>
      intro p
      calc (poolRun (poolStep p op).1 ops).poolSize = (poolStep p op).1.poolSize := ih _
        _ = p.poolSize := poolSize_poolStep p op

/-- Helper: the completion barrier never increases under any operation other
than `start`. -/
theorem barrier_mono (p : Pool) (op : PoolOp) (h : op ≠ PoolOp.start) :
    (poolStep p op).1.barrier ≤ p.barrier := by
  cases op with
  | start => exact absurd rfl h
  | submit t => by_cases hr : p.phase = PoolPhase.running <;> simp [poolStep, hr]
  | shutdown => by_cases hr : p.phase = PoolPhase.running <;> simp [poolStep, hr]
  | workerBegin i => simp only [poolStep]; split <;> simp
  | workerFinish i => simp only [poolStep]; split <;> simp
  | workerExit i =>
      simp only [poolStep]
      split
      · simp [Nat.sub_le]
      · simp

/-- Helper: a second `workerExit` for the same worker is a no-op — each
worker's exit path runs at most once. -/
theorem workerExit_idem (p : Pool) (i : Nat) :
    poolStep (poolStep p (PoolOp.workerExit i)).1 (PoolOp.workerExit i) =
      ((poolStep p (PoolOp.workerExit i)).1, none) := by
  cases hsig : p.signal with
  | active =>
      have h1 : poolStep p (PoolOp.workerExit i) = (p, none) := by
        simp only [poolStep, hsig]
        cases p.workers[i]? with
        | none => rfl
        | some w => cases w <;> rfl
      rw [h1]
      exact h1
  | cancelled =>
      cases hw : p.workers[i]? with
      | none =>
          have h1 : poolStep p (PoolOp.workerExit i) = (p, none) := by
            simp only [poolStep, hsig, hw]
          rw [h1]
          have h2 : poolStep p (PoolOp.workerExit i) = (p, none) := h1
          exact h2
      | some w =>
          cases w with
          | idle =>
              have hlt : i < p.workers.length :=
                (List.getElem?_eq_some_iff.mp hw).1
              have h1 : poolStep p (PoolOp.workerExit i) =
                  ({ p with workers := p.workers.set i WStatus.exited,
                            barrier := p.barrier - 1,
                            phase := if p.barrier - 1 = 0 then PoolPhase.stopped
                                     else p.phase }, none) := by
                simp only [poolStep, hsig, hw]
              rw [h1]
              simp only [poolStep]
              have hset : (p.workers.set i WStatus.exited)[i]? = some WStatus.exited :=
                List.getElem?_set_self hlt
              simp [hset]
          | busy =>
              have h1 : poolStep p (PoolOp.workerExit i) = (p, none) := by
                simp only [poolStep, hsig, hw]
              rw [h1]
              exact h1
          | exited =>
              have h1 : poolStep p (PoolOp.workerExit i) = (p, none) := by
                simp only [poolStep, hsig, hw]
              rw [h1]
              exact h1

/-- C5: in every reachable pool state the completion barrier equals the
number of workers still running; it reaches zero only when every worker has
returned, workers only exit after observing the cancellation signal, the
counter never increases under any operation but `start`, a worker exit
decrements it by exactly one (or does nothing), and a second exit of the
same worker is a no-op. -/
theorem c5_completion_barrier (k i : Nat) (ops : List PoolOp) :
    (reachPool k ops).barrier = liveCount (reachPool k ops) ∧
    ((reachPool k ops).barrier = 0 → ∀ w ∈ (reachPool k ops).workers, w = WStatus.exited) ∧
    (∀ w ∈ (reachPool k ops).workers, w = WStatus.exited →
        (reachPool k ops).signal = SignalState.cancelled) ∧
    (∀ op : PoolOp, op ≠ PoolOp.start →
        (poolStep (reachPool k ops) op).1.barrier ≤ (reachPool k ops).barrier) ∧
    ((poolStep (reachPool k ops) (PoolOp.workerExit i)).1.barrier = (reachPool k ops).barrier ∨
      (poolStep (reachPool k ops) (PoolOp.workerExit i)).1.barrier + 1 =
        (reachPool k ops).barrier) ∧
    poolStep (poolStep (reachPool k ops) (PoolOp.workerExit i)).1 (PoolOp.workerExit i) =
      ((poolStep (reachPool k ops) (PoolOp.workerExit i)).1, none) := by
  obtain ⟨hb, hl, hs⟩ := poolInv_reach k ops
  refine ⟨hb, ?_, hs, fun op hop => barrier_mono _ op hop, ?_, workerExit_idem _ i⟩
  · intro hz w hw
    rw [hb] at hz
    simp only [liveCount] at hz
    have hnl := (List.countP_eq_zero.mp hz) w hw
    simpa [liveP] using hnl
  · set p := reachPool k ops with hp
    simp only [poolStep]
    split
    · next heqw heqs =>
        right
        have hmem : WStatus.idle ∈ p.workers := List.getElem?_mem heqw
        have hone : 0 < p.workers.countP liveP :=
          List.countP_pos_iff.mpr ⟨WStatus.idle, hmem, rfl⟩
        simp only [liveCount] at hb
        simp only []
        omega
    · left; rfl

/-- Witness for C5 at a concrete trace: one worker is started, shutdown is
triggered, and the worker exits, bringing the barrier to zero. -/
theorem c5_completion_barrier_witness :
    (reachPool 1 [PoolOp.start, PoolOp.shutdown, PoolOp.workerExit 0]).barrier =
      liveCount (reachPool 1 [PoolOp.start, PoolOp.shutdown, PoolOp.workerExit 0]) ∧
    ((reachPool 1 [PoolOp.start, PoolOp.shutdown, PoolOp.workerExit 0]).barrier = 0 →
        ∀ w ∈ (reachPool 1 [PoolOp.start, PoolOp.shutdown, PoolOp.workerExit 0]).workers,
          w = WStatus.exited) ∧
    (∀ w ∈ (reachPool 1 [PoolOp.start, PoolOp.shutdown, PoolOp.workerExit 0]).workers,
        w = WStatus.exited →
        (reachPool 1 [PoolOp.start, PoolOp.shutdown, PoolOp.workerExit 0]).signal =
          SignalState.cancelled) ∧
    (∀ op : PoolOp, op ≠ PoolOp.start →
        (poolStep (reachPool 1 [PoolOp.start, PoolOp.shutdown, PoolOp.workerExit 0]) op).1.barrier ≤
          (reachPool 1 [PoolOp.start, PoolOp.shutdown, PoolOp.workerExit 0]).barrier) ∧
    ((poolStep (reachPool 1 [PoolOp.start, PoolOp.shutdown, PoolOp.workerExit 0])
          (PoolOp.workerExit 0)).1.barrier =
        (reachPool 1 [PoolOp.start, PoolOp.shutdown, PoolOp.workerExit 0]).barrier ∨
      (poolStep (reachPool 1 [PoolOp.start, PoolOp.shutdown, PoolOp.workerExit 0])
          (PoolOp.workerExit 0)).1.barrier + 1 =
        (reachPool 1 [PoolOp.start, PoolOp.shutdown, PoolOp.workerExit 0]).barrier) ∧
    poolStep (poolStep (reachPool 1 [PoolOp.start, PoolOp.shutdown, PoolOp.workerExit 0])
        (PoolOp.workerExit 0)).1 (PoolOp.workerExit 0) =
      ((poolStep (reachPool 1 [PoolOp.start, PoolOp.shutdown, PoolOp.workerExit 0])
          (PoolOp.workerExit 0)).1, none) :=
  c5_completion_barrier 1 0 [PoolOp.start, PoolOp.shutdown, PoolOp.workerExit 0]

/-- C6: `Start` spawns exactly `poolSize` workers, the number of live worker
handles never exceeds the configured pool size in any reachable state, and
hence no more than `poolSize` tasks execute concurrently. -/
theorem c6_bounded_concurrency (k : Nat) (ops : List PoolOp) :
    (poolStep (Pool.init k) PoolOp.start).1.workers = List.replicate k WStatus.idle ∧
    ((poolStep (Pool.init k) PoolOp.start).1.workers).length = k ∧
    liveCount (reachPool k ops) ≤ k ∧
    busyCount (reachPool k ops) ≤ k := by
  obtain ⟨hb, hl, hs⟩ := poolInv_reach k ops
  have hk := poolSize_reach k ops
  refine ⟨by simp [poolStep, Pool.init], by simp [poolStep, Pool.init], ?_, ?_⟩
  · exact le_trans (le_trans (List.countP_le_length _) hl) (le_of_eq hk)
  · exact le_trans (le_trans (List.countP_le_length _) hl) (le_of_eq hk)

/-- C8: lifecycle misuse is reported synchronously as a typed error and the
state is left unchanged: a second `Start` fails with `AlreadyStarted`, and
`Submit` fails with `PoolNotRunning` both before `Start` and at any point
after `Shutdown` has begun. -/
theorem c8_lifecycle_typed_errors (p : Pool) (k : Nat) (t : Task) :
    poolStep (poolStep p PoolOp.start).1 PoolOp.start =
      ((poolStep p PoolOp.start).1, some PoolError.AlreadyStarted) ∧
    poolStep (Pool.init k) (PoolOp.submit t) = (Pool.init k, some PoolError.PoolNotRunning) ∧
    poolStep (poolStep p PoolOp.shutdown).1 (PoolOp.submit t) =
      ((poolStep p PoolOp.shutdown).1, some PoolError.PoolNotRunning) := by
  refine ⟨?_, by simp [poolStep, Pool.init], ?_⟩
  · by_cases hc : p.phase = PoolPhase.created
    · simp [poolStep, hc]
    · simp [poolStep, hc]
  · by_cases hr : p.phase = PoolPhase.running
    · simp [poolStep, hr]
    · simp [poolStep, hr]

/-- Helper: once the `sync.Once` inside `ResilientOnce` has fired, every
further `Do` call leaves the state unchanged, never invokes `f`, and keeps
returning the recorded verdict. -/
theorem runCalls_done (r : ResilientOnce) (h : r.onceDone = true) :
    ∀ fs : List FnOutcome, r.runCalls fs = (r, fs.map (fun _ => (r.succeeded, false))) := by
  intro fs
  induction fs with
  | nil => rfl
  | cons f fs ih =>
      simp [ResilientOnce.runCalls, ResilientOnce.Do, h, ih]

/-- C9: over any sequence of `ResilientOnce.Do` calls on the same receiver,
`f` is invoked exactly once (by the first call only), and every call — first
and subsequent — returns nil exactly when that single invocation of `f`
returned nil without panicking; after a first panic or first non-nil error
every later call returns a non-nil error forever. -/
theorem c9_resilient_once (f : FnOutcome) (fs : List FnOutcome) :
    (ResilientOnce.zero.runCalls (f :: fs)).2 =
      (decide (f = FnOutcome.ok), true) ::
        fs.map (fun _ => (decide (f = FnOutcome.ok), false)) ∧
    (ResilientOnce.zero.runCalls (f :: fs)).2.countP (fun pr => pr.2) = 1 := by
  have hchar : (ResilientOnce.zero.runCalls (f :: fs)).2 =
      (decide (f = FnOutcome.ok), true) ::
        fs.map (fun _ => (decide (f = FnOutcome.ok), false)) := by
    cases f <;>
      simp [ResilientOnce.runCalls, ResilientOnce.Do, ResilientOnce.zero,
        runCalls_done, List.map_const']
  refine ⟨hchar, ?_⟩
  rw [hchar]
  simp [List.countP_cons, List.countP_map]

/-- Helper: the retry loop of `RetryOnce.Do` performs at most `rem` more
invocations. -/
theorem retryLoop_le (f : Nat → FnOutcome) :
    ∀ (rem i n : Nat), retryLoop f i rem = some n → n ≤ i + rem := by
  intro rem
  induction rem with
  | zero => intro i n h; simp [retryLoop] at h
  | succ rem ih =>
      intro i n h
      simp only [retryLoop] at h
      cases hA : attemptErr (f i) with
      | none =>
          rw [hA] at h
          simp at h
          omega
      | some e =>
          rw [hA] at h
          simp at h
          have := ih (i + 1) n h
          omega

/-- Helper: the retry loop succeeds exactly when one of the remaining
attempts returns nil without panicking. -/
theorem retryLoop_isSome (f : Nat → FnOutcome) :
    ∀ (rem i : Nat),
      (retryLoop f i rem).isSome = true ↔ ∃ j, j < rem ∧ f (i + j) = FnOutcome.ok := by
  intro rem
  induction rem with
  | zero => intro i; simp [retryLoop]
  | succ rem ih =>
      intro i
      simp only [retryLoop]
      cases hA : attemptErr (f i) with
      | none =>
          have hfi : f i = FnOutcome.ok := by
            cases hf : f i
            · rfl
            · rw [hf] at hA; simp [attemptErr] at hA
            · rw [hf] at hA; simp [attemptErr] at hA
          simp only [Option.isSome_some, true_iff]
          exact ⟨0, Nat.succ_pos rem, by simpa using hfi⟩
      | some e =>
          have hfi : f i ≠ FnOutcome.ok := by
            intro hc; rw [hc] at hA; simp [attemptErr] at hA
          rw [ih (i + 1)]
          constructor
          · rintro ⟨j, hj, hok⟩
            refine ⟨j + 1, by omega, ?_⟩
            rw [show i + (j + 1) = i + 1 + j by omega]
            exact hok
          · rintro ⟨j, hj, hok⟩
            cases j with
            | zero => exact absurd (by simpa using hok) hfi
            | succ j =>
                refine ⟨j, by omega, ?_⟩
                rw [show i + 1 + j = i + (j + 1) by omega]
                exact hok

/-- C10: `RetryOnce.Do` invokes `f` at most `maxRetries` times and returns
nil exactly when some invocation returns nil without panicking; once a call
has returned nil the receiver is initialized, so later calls return nil with
zero invocations; and for the zero value (`maxRetries = 0`) it returns a
non-nil error without ever invoking `f`. -/
theorem c10_retry_once (f g : Nat → FnOutcome) (k : Nat) :
    (RetryOnce.Do { initialized := false, maxRetries := k } f).2.2 ≤ k ∧
    ((RetryOnce.Do { initialized := false, maxRetries := k } f).2.1 = true ↔
        ∃ i, i < k ∧ f i = FnOutcome.ok) ∧
    ((RetryOnce.Do { initialized := false, maxRetries := k } f).1.initialized =
        (RetryOnce.Do { initialized := false, maxRetries := k } f).2.1) ∧
    RetryOnce.Do { initialized := true, maxRetries := k } g =
      ({ initialized := true, maxRetries := k }, true, 0) ∧
    RetryOnce.Do { initialized := false, maxRetries := 0 } f =
      ({ initialized := false, maxRetries := 0 }, false, 0) := by
  have hiff := retryLoop_isSome f k 0
  simp only [Nat.zero_add] at hiff
  refine ⟨?_, ?_, ?_, by simp [RetryOnce.Do], by simp [RetryOnce.Do, retryLoop]⟩
  · simp only [RetryOnce.Do]
    cases hL : retryLoop f 0 k with
    | none => simp
    | some n =>
        have := retryLoop_le f k 0 n hL
        simp
        omega
  · simp only [RetryOnce.Do]
    cases hL : retryLoop f 0 k with
    | none =>
        rw [hL] at hiff
        simp at hiff
        simpa using hiff
    | some n =>
        rw [hL] at hiff
        simp at hiff
        simpa using hiff
  · simp only [RetryOnce.Do]
    cases hL : retryLoop f 0 k with
    | none => simp
    | some n => simp

/-- Witness for C10 at a concrete budget and outcome function: with
`maxRetries = 1` and an `f` that succeeds immediately, `Do` returns nil after
one invocation. -/
theorem c10_retry_once_witness :
    (RetryOnce.Do { initialized := false, maxRetries := 1 } (fun _ => FnOutcome.ok)).2.2 ≤ 1 ∧
    ((RetryOnce.Do { initialized := false, maxRetries := 1 } (fun _ => FnOutcome.ok)).2.1 = true ↔
        ∃ i, i < 1 ∧ (fun _ => FnOutcome.ok) i = FnOutcome.ok) ∧
    ((RetryOnce.Do { initialized := false, maxRetries := 1 } (fun _ => FnOutcome.ok)).1.initialized =
        (RetryOnce.Do { initialized := false, maxRetries := 1 } (fun _ => FnOutcome.ok)).2.1) ∧
    RetryOnce.Do { initialized := true, maxRetries := 1 } (fun _ => FnOutcome.ok) =
      ({ initialized := true, maxRetries := 1 }, true, 0) ∧
    RetryOnce.Do { initialized := false, maxRetries := 0 } (fun _ => FnOutcome.ok) =
      ({ initialized := false, maxRetries := 0 }, false, 0) :=
  c10_retry_once (fun _ => FnOutcome.ok) (fun _ => FnOutcome.ok) 1

end JobSystem
